import Mathlib

/-
Verification of the static blog generator in bin/make_blog.py.

The program is modelled by a shallow embedding: each Python function that a
claim touches is translated into an executable Lean definition.  External
library calls (pytz, dateutil, the Markdown parser, the OS filesystem) are
modelled by explicit parameters or by small definitions that follow the
library's documented behaviour; each such definition says so in its doc
comment.  Strings that the program inspects character by character are
modelled as List Char.
-/

namespace MakeBlog

/-! ### Quote stripping: Post.unquote -/

/-- Tests whether a character is one of the two quote characters matched by
the character class in the regex of Post.unquote. -/
def isQuoteChar (c : Char) : Bool :=
  c = '\'' || c = '"'

/-- Removes the first character of the list when it is a quote character and
keeps the list unchanged otherwise.  This is the effect of the anchored
alternative matching one quote at the start of the string. -/
def dropLeadingQuote : List Char → List Char
  | [] => []
  | c :: rest => if isQuoteChar c then rest else c :: rest

/-- Tests whether a string begins with a quote character. -/
def startsWithQuote : List Char → Bool
  | [] => false
  | c :: _ => isQuoteChar c

/-- Tests whether a string ends with a quote character. -/
def endsWithQuote (s : List Char) : Bool :=
  startsWithQuote s.reverse

/-- Model of Post.unquote, which applies re.sub with the pattern
matching a single quote character anchored at the start or at the end of
the string and replaces each match with the empty string.  Scanning left to
right, the substitution removes one leading quote character, when present,
and one trailing quote character, when still present afterwards; the
trailing removal is expressed by working on the reversed list. -/
def unquote (s : List Char) : List Char :=
  (dropLeadingQuote (dropLeadingQuote s).reverse).reverse

/-! ### URL rewriting before feed generation -/

/-- Model of the regex substitution applied to each post before the feeds
are rendered: every occurrence of a quote character immediately followed by
the five characters of the relative prefix /blog is replaced by the same
quote character followed by the absolute prefix, and scanning resumes after
the replaced occurrence.  When the leading character is not a quote the
five following characters are copied as well before scanning resumes: none
of them is a quote character, so no match of the left-to-right scan can
begin among them. -/
def rewriteBlog : List Char → List Char
  | [] => []
  | c :: '/' :: 'b' :: 'l' :: 'o' :: 'g' :: rest =>
    if isQuoteChar c then
      c :: ("https://tshafer.com/blog".toList ++ rewriteBlog rest)
    else
      c :: '/' :: 'b' :: 'l' :: 'o' :: 'g' :: rewriteBlog rest
  | c :: rest => c :: rewriteBlog rest

/-! ### JSON encoding of the post body: json.dumps -/

/-- Escapes one character the way json.dumps escapes it inside a JSON
string literal: backslash and double quote get a backslash, control
characters become a short named escape or a uXXXX escape (the exact digits
are immaterial to every claim; only injectivity-style facts about the
overall encoding matter, and none are needed). -/
def jsonEscapeChar (c : Char) : List Char :=
  if c = '\\' then ['\\', '\\']
  else if c = '"' then ['\\', '"']
  else if c = '\n' then ['\\', 'n']
  else if c = '\t' then ['\\', 't']
  else if c = '\r' then ['\\', 'r']
  else if c.toNat < 32 then
    ['\\', 'u', '0', '0',
     Nat.digitChar (c.toNat / 16), Nat.digitChar (c.toNat % 16)]
  else [c]

/-- Model of json.dumps applied to a string: the escaped characters wrapped
in double quotes. -/
def jsonDumps (s : List Char) : List Char :=
  '"' :: s.flatMap jsonEscapeChar ++ ['"']

/-! ### Dates and timezone localization -/

/-- Model of a timezone-naive datetime as returned by dateutil's parse when
the input carries no timezone: local calendar year and month, plus the
instant within the month (day and time of day) collapsed into one number,
which is all the precision any claim needs. -/
structure NaiveDT where
  year : Int
  month : Nat
  rest : Int
deriving DecidableEq, Repr

/-- Model of a timezone-aware datetime.  All dates constructed by the
program come out of one fixed timezone, so dates are compared by their
calendar fields: year, then month, then the instant within the month. -/
structure AwareDT where
  year : Int
  month : Nat
  rest : Int
deriving DecidableEq, Repr

/-- Comparison of aware datetimes: lexicographic on year, month and the
within-month instant.  For datetimes sharing one timezone this agrees with
the instant-in-time comparison Python uses. -/
def AwareDT.le (a b : AwareDT) : Prop :=
  a.year < b.year ∨
    (a.year = b.year ∧
      (a.month < b.month ∨ (a.month = b.month ∧ a.rest ≤ b.rest)))

instance : DecidableRel AwareDT.le := fun a b => by
  unfold AwareDT.le; exact inferInstance

theorem AwareDT.le_refl (a : AwareDT) : AwareDT.le a a := by
  unfold AwareDT.le; omega

/-- Result of dateutil's parse: either a naive or an aware datetime. -/
inductive ParsedDT where
  | naive (dt : NaiveDT)
  | aware (dt : AwareDT)
deriving DecidableEq, Repr

/-- Errors a Post construction or a localization can raise. -/
inductive BuildError where
  /-- KeyError raised by the metadata dictionary lookup; the spec calls
  this kind MissingMetadataError. -/
  | missingMetadata
  /-- IndexError raised by indexing element zero of an empty value list. -/
  | indexError
  /-- Failure of dateutil's parse; the spec calls this DateParseError. -/
  | dateParse
  /-- ValueError raised by pytz when localize receives a datetime that is
  already timezone-aware. -/
  | valueErrorAlreadyAware
  /-- AmbiguousTimeError raised by pytz under is_dst equal to None. -/
  | ambiguousTime
  /-- NonExistentTimeError raised by pytz under is_dst equal to None. -/
  | nonExistentTime
deriving DecidableEq, Repr

/-- Model of a pytz timezone object such as pytz.timezone applied to
US/Eastern: which naive wall-clock times are ambiguous (fall-back hour),
which do not exist (spring-forward hour), and how an unambiguous naive
wall-clock time is turned into an aware datetime of this zone. -/
structure Timezone where
  isAmbiguous : NaiveDT → Bool
  isNonexistent : NaiveDT → Bool
  attach : NaiveDT → AwareDT

/-- Model of the localize method of a pytz timezone called with is_dst set
to None, as the program does: a datetime that is already aware raises
ValueError; a naive wall-clock time that is ambiguous or nonexistent in
the zone raises the corresponding pytz error; otherwise the wall-clock
time is interpreted in the zone and returned as an aware datetime. -/
def pytzLocalize (tz : Timezone) (dt : ParsedDT) : Except BuildError AwareDT :=
  match dt with
  | .aware _ => .error .valueErrorAlreadyAware
  | .naive w =>
    if tz.isAmbiguous w then .error .ambiguousTime
    else if tz.isNonexistent w then .error .nonExistentTime
    else .ok (tz.attach w)

/-! ### Filename extensions and slugs -/

/-- The extension of a single path component, as os.path.splitext computes
it: the suffix starting at the last dot, including that dot, except that a
name consisting of leading dots followed by no further dot has no
extension (splitext treats leading dots as part of the base name). -/
def splitextExt (name : List Char) : List Char :=
  let rest := name.dropWhile (· = '.')
  if rest.contains '.' then
    '.' :: (rest.reverse.takeWhile (· ≠ '.')).reverse
  else []

/-- The root part of a path under os.path.splitext: the path with the
extension of its last component removed. -/
def splitextRoot (p : List Char) : List Char :=
  let base := (p.reverse.takeWhile (· ≠ '/')).reverse
  p.take (p.length - (splitextExt base).length)

/-- Decides whether a filename is matched by the test inside find_files:
its splitext extension, lowercased and with leading dots stripped, is a
member of the configured extension collection. -/
def extMatched (exts : List (List Char)) (name : List Char) : Bool :=
  ((splitextExt name).map Char.toLower).dropWhile (· = '.') ∈ exts

/-- Model of os.path.join for the uses the program makes of it: the left
operand is a nonempty directory path not ending in the separator and the
right operand is a bare component, so joining inserts one separator. -/
def pyJoin (a b : String) : String :=
  a ++ "/" ++ b

/-- Model of os.path.relpath for the case the build exercises: every file
handed to the Post constructor was produced by walking the content root,
so its path extends the root by a separator and a relative part, and
relpath returns that relative part. -/
def pyRelpathUnder (base p : String) : String :=
  if (base ++ "/").toList.isPrefixOf p.toList then
    ⟨p.toList.drop (base.length + 1)⟩
  else p

/-- Model of Post.make_slug: the source path relative to the content root,
with the extension of its final component removed. -/
def make_slug (local_base source_path : String) : String :=
  ⟨splitextRoot (pyRelpathUnder local_base source_path).toList⟩

/-! ### The Post data model and its construction -/

/-- Model of the Post object: the fields assigned by the constructor.  The
character-level fields the program inspects or rewrites are lists of
characters. -/
structure Post where
  source_path : String
  slug : String
  source : String
  html : List Char
  json_html : List Char
  title : List Char
  date : AwareDT
deriving DecidableEq, Repr

/-- Looks up a key in the metadata dictionary produced by the Markdown
parser, modelled as an association list from key to the list of value
lines for that key. -/
def lookupMeta (meta : List (String × List (List Char))) (key : String) :
    Option (List (List Char)) :=
  (meta.find? (fun kv => kv.1 == key)).map (fun kv => kv.2)

/-- Model of the Post constructor.  The external collaborators appear as
parameters: readFile models the UTF-8 file read, mdConvert and mdMeta
model the convert call and the Meta attribute of the Markdown parser,
parseDate models dateutil's parse (returning none on unparseable input,
the spec's DateParseError), and tz models pytz.timezone applied to
US/Eastern.  In source order the constructor records the source path, the
slug, the source text, the converted HTML and its JSON encoding, then
requires the title key (a missing key raises KeyError, the spec's
MissingMetadataError) and unquotes its first value line, then requires and
unquotes the date key's first value line, parses it and localizes the
result. -/
def Post.init (local_base : String) (file_path : String)
    (readFile : String → String)
    (mdConvert : String → List Char)
    (mdMeta : String → List (String × List (List Char)))
    (parseDate : List Char → Option ParsedDT)
    (tz : Timezone) : Except BuildError Post :=
  let source := readFile file_path
  let html := mdConvert source
  let meta := mdMeta source
  match lookupMeta meta "title" with
  | none => .error .missingMetadata
  | some titleLines =>
    match titleLines.head? with
    | none => .error .indexError
    | some rawTitle =>
      match lookupMeta meta "date" with
      | none => .error .missingMetadata
      | some dateLines =>
        match dateLines.head? with
        | none => .error .indexError
        | some rawDate =>
          match parseDate (unquote rawDate) with
          | none => .error .dateParse
          | some parsed =>
            match pytzLocalize tz parsed with
            | .error e => .error e
            | .ok d =>
              .ok ⟨file_path, make_slug local_base file_path, source,
                   html, jsonDumps html, unquote rawTitle, d⟩

/-! ### Sorting the collection by date, descending -/

/-- The ordering relation the descending date sort establishes between
adjacent posts: the later list element has a date less than or equal to
the earlier one. -/
def postDesc (p q : Post) : Prop :=
  AwareDT.le q.date p.date

instance : DecidableRel postDesc := fun p q => by
  unfold postDesc; exact inferInstance

instance : IsTotal Post postDesc :=
  ⟨by intro a b; unfold postDesc AwareDT.le; omega⟩

instance : IsTrans Post postDesc :=
  ⟨by intro a b c; unfold postDesc AwareDT.le; omega⟩

/-- Model of the Python call sorted with the date as key and reverse set
to True: the unique stable descending-by-date reordering of the input.
Python's sort and insertion sort are both stable, and any two stable sorts
of the same list under the same total preorder coincide, so insertion sort
computes exactly the list the program computes. -/
def sortPostsDesc (l : List Post) : List Post :=
  List.insertionSort postDesc l

/-! ### Grouping by year and by month -/

/-- Model of the Python expression building the set of years present in
the collection: the year of every post, with duplicates removed.  Python's
set iteration order is unspecified; every claim about the groups is
insensitive to the order of this list. -/
def yearsOf (posts : List Post) : List Int :=
  (posts.map (fun p => p.date.year)).dedup

/-- Model of the filtered list the year-archive loop builds for one year:
the posts of the collection whose date has that year, in collection
order. -/
def byYear (posts : List Post) (y : Int) : List Post :=
  posts.filter (fun p => decide (p.date.year = y))

/-- Model of the Python expression building the set of months present in a
year's posts, with duplicates removed. -/
def monthsOf (year_posts : List Post) : List Nat :=
  (year_posts.map (fun p => p.date.month)).dedup

/-- Model of the filtered list the month-archive loop builds for one
month of one year. -/
def byMonth (year_posts : List Post) (m : Nat) : List Post :=
  year_posts.filter (fun p => decide (p.date.month = m))

/-! ### The build pipeline after construction -/

/-- Model of the loop that mutates each post before the feeds render: only
the html field changes, rewritten by the regex substitution; all other
fields are untouched. -/
def mutatePost (p : Post) : Post :=
  ⟨p.source_path, p.slug, p.source, rewriteBlog p.html, p.json_html,
   p.title, p.date⟩

/-- The trace events of one build, each rendering event recording the html
bodies of the posts handed to the template. -/
inductive Event where
  /-- Rendering of one post page, with the source path it writes next to
  and the html body the template receives. -/
  | renderPost (source_path : String) (html : List Char)
  /-- Rendering of the index page over the whole sorted collection. -/
  | renderIndex (htmls : List (List Char))
  /-- Rendering of one year archive page. -/
  | renderYearArchive (year : Int) (htmls : List (List Char))
  /-- Rendering of one month archive page. -/
  | renderMonthArchive (year : Int) (month : Nat) (htmls : List (List Char))
  /-- The in-place mutation rewriting relative blog links to absolute. -/
  | mutateHtml
  /-- Rendering of the RSS feed over the whole collection. -/
  | renderRSS (htmls : List (List Char))
  /-- Rendering of the JSON feed over the whole collection. -/
  | renderJSON (htmls : List (List Char))
deriving DecidableEq, Repr

/-- The html bodies an event hands to its template. -/
def Event.htmls : Event → List (List Char)
  | .renderPost _ h => [h]
  | .renderIndex hs => hs
  | .renderYearArchive _ hs => hs
  | .renderMonthArchive _ _ hs => hs
  | .mutateHtml => []
  | .renderRSS hs => hs
  | .renderJSON hs => hs

/-- Tests whether an event is one of the two feed renders. -/
def Event.isFeed : Event → Bool
  | .renderRSS _ => true
  | .renderJSON _ => true
  | _ => false

/-- Model of the main program after the posts are constructed, as the
sequence of events it performs in program order: sort the collection, then
render every post page, then the index, then for each year its archive
followed by the archives of the months present in that year, then mutate
every post's html in place, then render the RSS feed and the JSON feed
over the mutated collection. -/
def buildEvents (posts0 : List Post) : List Event :=
  let posts := sortPostsDesc posts0
  let mutated := posts.map mutatePost
  (posts.map (fun p => Event.renderPost p.source_path p.html))
    ++ [Event.renderIndex (posts.map (fun p => p.html))]
    ++ ((yearsOf posts).flatMap (fun y =>
          Event.renderYearArchive y ((byYear posts y).map (fun p => p.html))
            :: (monthsOf (byYear posts y)).map (fun m =>
                Event.renderMonthArchive y m
                  ((byMonth (byYear posts y) m).map (fun p => p.html)))))
    ++ [Event.mutateHtml]
    ++ [Event.renderRSS (mutated.map (fun p => p.html)),
        Event.renderJSON (mutated.map (fun p => p.html))]

/-- The collection as the feed renders see it: sorted, then mutated in
place. -/
def finalPosts (posts0 : List Post) : List Post :=
  (sortPostsDesc posts0).map mutatePost

/-! ### The output writer and the filesystem -/

/-- A directory path as a list of components. -/
abbrev DirPath := List String

/-- A filesystem state: the set of directories that exist and the files
written so far, each file keyed by its directory path and name. -/
structure FileSys where
  dirs : List DirPath
  files : List ((DirPath × String) × String)
deriving DecidableEq, Repr

/-- Model of opening a path with codecs.open in write mode and writing
text to it, following the operating system's semantics that the program
relies on: the open call creates or truncates the named file, requires
the directory containing it to exist already, and never creates missing
intermediate directories; a missing directory raises FileNotFoundError. -/
def openWrite (fs : FileSys) (dir : DirPath) (name : String)
    (content : String) : Option FileSys :=
  if dir ∈ fs.dirs then
    some ⟨fs.dirs, ((dir, name), content) :: fs.files⟩
  else
    none

/-- Pads a month number to two digits, modelling the Python format
specifier for the month directory of the month archive. -/
def pad2 (n : Nat) : String :=
  if n < 10 then "0" ++ toString n else toString n

/-- Model of the year-archive write: the rendered text goes to the file
index.html inside the directory named after the year under the content
root. -/
def writeYearArchive (fs : FileSys) (root : DirPath) (yr : Int)
    (content : String) : Option FileSys :=
  openWrite fs (root ++ [toString yr]) "index.html" content

/-- Model of the month-archive write: the rendered text goes to the file
index.html inside the zero-padded month directory of the year directory
under the content root. -/
def writeMonthArchive (fs : FileSys) (root : DirPath) (yr : Int) (mn : Nat)
    (content : String) : Option FileSys :=
  openWrite fs (root ++ [toString yr, pad2 mn]) "index.html" content

/-! ### File discovery -/

mutual
/-- A directory tree: the files directly in the directory and its named
subdirectories. -/
inductive FSTree where
  | node (files : List String) (subdirs : Entries)
deriving DecidableEq

/-- The named subdirectories of a directory. -/
inductive Entries where
  | nil
  | cons (name : String) (t : FSTree) (rest : Entries)
deriving DecidableEq
end

/-- The subdirectory list of a tree node as a list of named trees. -/
def Entries.toList : Entries → List (String × FSTree)
  | .nil => []
  | .cons name t rest => (name, t) :: rest.toList

mutual
/-- Model of find_files: walk the tree below the base path top-down and
yield, for every visited directory, the join of its path with each of its
file names whose extension test succeeds.  The walk of os.walk is modelled
by the structural traversal of the tree; matching and joining are the
body of the loop in the source. -/
def find_files (exts : List (List Char)) (base : String) :
    FSTree → List String
  | .node files subdirs =>
    (files.filter (fun f => extMatched exts f.toList)).map
        (fun f => pyJoin base f)
      ++ findFilesEntries exts base subdirs

/-- The part of the walk that descends into each named subdirectory in
order. -/
def findFilesEntries (exts : List (List Char)) (base : String) :
    Entries → List String
  | .nil => []
  | .cons name t rest =>
    find_files exts (pyJoin base name) t ++ findFilesEntries exts base rest
end

/-- Membership of a file in a tree: the file named f lies in the directory
reached from the root by following the listed subdirectory names. -/
inductive FileIn : FSTree → List String → String → Prop where
  | here {files subdirs f} (hf : f ∈ files) :
      FileIn (.node files subdirs) [] f
  | inSub {files subdirs name t ds f}
      (ht : (name, t) ∈ subdirs.toList) (hd : FileIn t ds f) :
      FileIn (.node files subdirs) (name :: ds) f

/-- The joined path of a file reached from the base by a list of
subdirectory names. -/
def joinPath (base : String) (ds : List String) (f : String) : String :=
  pyJoin (ds.foldl pyJoin base) f

/-- Tests whether a path string is absolute in the POSIX sense the spec
intends: it starts with the separator. -/
def isAbsolutePath (p : String) : Bool :=
  match p.data with
  | [] => false
  | c :: _ => c = '/'

/-- A concrete timezone value used when the model is evaluated on concrete
inputs: no wall-clock time is ambiguous or nonexistent, and localization
attaches the zone without shifting the calendar fields. -/
def plainTz : Timezone :=
  ⟨fun _ => false, fun _ => false, fun w => ⟨w.year, w.month, w.rest⟩⟩

/-!
## Theorems

One theorem per claim, each preceded by helper lemmas it needs.
-/

/-- Dropping a leading quote from a string that does not start with a
quote character changes nothing. -/
theorem dropLeadingQuote_eq_self {s : List Char}
    (h : startsWithQuote s = false) : dropLeadingQuote s = s := by
  cases s with
  | nil => rfl
  | cons c rest =>
    simp only [startsWithQuote] at h
    simp [dropLeadingQuote, h]

/-- C6 (counterexample): the unquote operation is not idempotent.  On the
three-character string of two single quotes and the letter a, one
application strips the first quote only, while a second application strips
the remaining quote, so applying unquote twice differs from applying it
once. -/
theorem unquote_not_idempotent :
    unquote (unquote ['\'', '\'', 'a']) ≠ unquote ['\'', '\'', 'a'] := by
  decide

/-- C6 (amended): unquoting a string that neither starts nor ends with a
quote character returns it unchanged, and unquoting the three-character
string of a double quote, the letter x and a double quote yields the
one-character string x.  Idempotence in general fails, because each
application can strip one further quote from either end. -/
theorem unquote_unquoted_fixed :
    (∀ s : List Char, startsWithQuote s = false → endsWithQuote s = false →
      unquote s = s) ∧
    unquote ['"', 'x', '"'] = ['x'] := by
  refine ⟨?_, by decide⟩
  intro s h1 h2
  unfold unquote
  rw [dropLeadingQuote_eq_self h1, dropLeadingQuote_eq_self h2,
    List.reverse_reverse]

/-- C6 (witness): the amended theorem evaluated on the concrete quote-free
string ab. -/
theorem unquote_unquoted_fixed_witness :
    unquote ['a', 'b'] = ['a', 'b'] :=
  unquote_unquoted_fixed.1 ['a', 'b'] (by decide) (by decide)

/-- C1 (counterexample): writing an archive does not succeed when the
target directory is missing.  In a filesystem whose only directory is the
content root, writing the year archive for 2020 and writing the month
archive for March 2020 both fail, because nothing creates the missing year
and month directories. -/
theorem write_archive_fails_without_dir :
    writeYearArchive ⟨[["blog"]], []⟩ ["blog"] 2020 "page" = none ∧
    writeMonthArchive ⟨[["blog"]], []⟩ ["blog"] 2020 3 "page" = none := by
  constructor <;> rfl

/-- C1 (amended): the output writer does not create missing intermediate
directories.  Writing the year archive succeeds exactly when the year
directory already exists under the content root, and writing the month
archive succeeds exactly when the zero-padded month directory already
exists under the year directory; otherwise the write fails. -/
theorem write_archive_iff_dir_exists (fs : FileSys) (root : DirPath)
    (yr : Int) (mn : Nat) (content : String) :
    ((writeYearArchive fs root yr content).isSome ↔
      root ++ [toString yr] ∈ fs.dirs) ∧
    ((writeMonthArchive fs root yr mn content).isSome ↔
      root ++ [toString yr, pad2 mn] ∈ fs.dirs) := by
  constructor
  · unfold writeYearArchive openWrite
    by_cases h : root ++ [toString yr] ∈ fs.dirs <;> simp [h]
  · unfold writeMonthArchive openWrite
    by_cases h : root ++ [toString yr, pad2 mn] ∈ fs.dirs <;> simp [h]

/-- C10: in the month-archive loop every month key is drawn from the
months present among the year's posts, so the filtered month list is
nonempty and indexing its first element cannot fail. -/
theorem month_posts_nonempty (year_posts : List Post) (m : Nat)
    (hm : m ∈ monthsOf year_posts) :
    byMonth year_posts m ≠ [] ∧
    (byMonth year_posts m).head?.isSome = true := by
  unfold monthsOf at hm
  rw [List.mem_dedup] at hm
  obtain ⟨p, hp, hpm⟩ := List.mem_map.mp hm
  have hmem : p ∈ byMonth year_posts m :=
    List.mem_filter.mpr ⟨hp, by simp [hpm]⟩
  cases h : byMonth year_posts m with
  | nil => rw [h] at hmem; cases hmem
  | cons a l => exact ⟨by simp, by simp⟩

/-- C10 (witness): a singleton collection whose post dates to March; the
month key 3 is present and the filtered list has a first element. -/
theorem month_posts_nonempty_witness :
    byMonth [(⟨"a", "a", "s", ['x'], ['x'], ['t'], ⟨2020, 3, 0⟩⟩ : Post)] 3
        ≠ [] ∧
    (byMonth [(⟨"a", "a", "s", ['x'], ['x'], ['t'], ⟨2020, 3, 0⟩⟩ : Post)]
        3).head?.isSome = true :=
  month_posts_nonempty
    [(⟨"a", "a", "s", ['x'], ['x'], ['t'], ⟨2020, 3, 0⟩⟩ : Post)] 3
    (by decide)

/-- Inserting an element satisfying a key test into a list places it in
front of every element satisfying the same test, provided the relation
prefers the inserted element to every such element: the filtered view of
the insertion is the element followed by the filtered view of the list. -/
theorem filter_orderedInsert_pos {α : Type} (r : α → α → Prop)
    [DecidableRel r] (pd : α → Bool) (x : α) (hx : pd x = true)
    (h : ∀ y, pd y = true → r x y) (l : List α) :
    (List.orderedInsert r x l).filter pd = x :: l.filter pd := by
  induction l with
  | nil => simp [List.orderedInsert, hx]
  | cons b l ih =>
    by_cases hrb : r x b
    · rw [List.orderedInsert, if_pos hrb]
      simp [hx]
    · have hb : pd b = false := by
        cases hpb : pd b with
        | false => rfl
        | true => exact absurd (h b hpb) hrb
      rw [List.orderedInsert, if_neg hrb, List.filter_cons_of_neg (by simp [hb]),
        ih, List.filter_cons_of_neg (by simp [hb])]

/-- Inserting an element that fails a key test leaves the filtered view of
the list unchanged. -/
theorem filter_orderedInsert_neg {α : Type} (r : α → α → Prop)
    [DecidableRel r] (pd : α → Bool) (x : α) (hx : pd x = false)
    (l : List α) :
    (List.orderedInsert r x l).filter pd = l.filter pd := by
  induction l with
  | nil => simp [List.orderedInsert, hx]
  | cons b l ih =>
    by_cases hrb : r x b
    · rw [List.orderedInsert, if_pos hrb, List.filter_cons_of_neg (by simp [hx])]
    · rw [List.orderedInsert, if_neg hrb]
      cases hpb : pd b with
      | false =>
        rw [List.filter_cons_of_neg (by simp [hpb]), ih,
          List.filter_cons_of_neg (by simp [hpb])]
      | true =>
        rw [List.filter_cons_of_pos (by simp [hpb]), ih,
          List.filter_cons_of_pos (by simp [hpb])]

/-- Insertion sort is stable: when all elements satisfying a key test are
mutually related by the sorting relation, the filtered view of the sorted
list equals the filtered view of the input. -/
theorem filter_insertionSort_eq {α : Type} (r : α → α → Prop)
    [DecidableRel r] (pd : α → Bool)
    (hpd : ∀ x y, pd x = true → pd y = true → r x y) (l : List α) :
    (List.insertionSort r l).filter pd = l.filter pd := by
  induction l with
  | nil => rfl
  | cons x l ih =>
    rw [List.insertionSort]
    cases hx : pd x with
    | true =>
      rw [filter_orderedInsert_pos r pd x hx (fun y hy => hpd x y hx hy),
        ih, List.filter_cons_of_pos (by simp [hx])]
    | false =>
      rw [filter_orderedInsert_neg r pd x hx, ih,
        List.filter_cons_of_neg (by simp [hx])]

/-- C2: the organizer's primary sequence is a permutation of the input,
every later element has a date less than or equal to every earlier one,
and for each date value the posts carrying that date appear in the same
relative order as in the input, so the sort is stable with insertion
order as the tiebreak. -/
theorem sortPostsDesc_perm_sorted_stable (l : List Post) :
    (sortPostsDesc l).Perm l ∧
    (sortPostsDesc l).Pairwise postDesc ∧
    (∀ d : AwareDT,
      (sortPostsDesc l).filter (fun p => decide (p.date = d)) =
        l.filter (fun p => decide (p.date = d))) := by
  refine ⟨List.perm_insertionSort postDesc l,
    List.sorted_insertionSort postDesc l, ?_⟩
  intro d
  apply filter_insertionSort_eq
  intro x y hx hy
  have hx' : x.date = d := of_decide_eq_true hx
  have hy' : y.date = d := of_decide_eq_true hy
  unfold postDesc
  rw [hx', hy']
  exact AwareDT.le_refl d

/-- Collecting the year groups over any duplicate-free list of years
yields, up to permutation, exactly the posts whose year is one of those
listed. -/
theorem flatMap_byYear_perm (posts : List Post) :
    ∀ ys : List Int, ys.Nodup →
      (ys.flatMap (byYear posts)).Perm
        (posts.filter (fun p => decide (p.date.year ∈ ys)))
  | [], _ => by simp
  | y :: ys, hnd => by
    have hy : y ∉ ys := (List.nodup_cons.mp hnd).1
    have hys : ys.Nodup := (List.nodup_cons.mp hnd).2
    rw [List.flatMap_cons]
    have ih := flatMap_byYear_perm posts ys hys
    refine ((ih.append_left (byYear posts y)).trans ?_)
    have hsplit :=
      List.filter_append_perm (fun p => decide (p.date.year = y))
        (posts.filter (fun p => decide (p.date.year ∈ y :: ys)))
    rw [List.filter_filter, List.filter_filter] at hsplit
    have h1 : posts.filter
        (fun a => decide (a.date.year = y) && decide (a.date.year ∈ y :: ys)) =
        byYear posts y := by
      unfold byYear
      apply List.filter_congr
      intro a _
      by_cases h : a.date.year = y <;> simp [h]
    have h2 : posts.filter
        (fun a => !decide (a.date.year = y) && decide (a.date.year ∈ y :: ys)) =
        posts.filter (fun p => decide (p.date.year ∈ ys)) := by
      apply List.filter_congr
      intro a _
      by_cases h : a.date.year = y
      · simp [h, hy]
      · simp [List.mem_cons, h]
    rw [h1, h2] at hsplit
    exact hsplit

/-- C5: the year groups partition the collection.  Taking the group of
every distinct year present and concatenating them yields every post of
the collection exactly once, up to order, and every post in the group of
year y has a date in year y. -/
theorem byYear_partition (posts : List Post) :
    (((yearsOf posts).flatMap (byYear posts)).Perm posts) ∧
    (∀ y : Int, ∀ p ∈ byYear posts y, p.date.year = y) := by
  constructor
  · have hnd : (yearsOf posts).Nodup := by
      unfold yearsOf; exact List.nodup_dedup _
    have h := flatMap_byYear_perm posts (yearsOf posts) hnd
    have heq :
        posts.filter (fun p => decide (p.date.year ∈ yearsOf posts)) =
          posts := by
      rw [List.filter_eq_self]
      intro p hp
      simp only [decide_eq_true_eq]
      unfold yearsOf
      rw [List.mem_dedup]
      exact List.mem_map.mpr ⟨p, hp, rfl⟩
    rw [heq] at h
    exact h
  · intro y p hp
    have := List.mem_filter.mp hp
    simpa using this.2

/-- C3 (counterexample): a date string that parses to a timezone-aware
datetime is not used as parsed.  The localize call is applied to every
parse result, and pytz raises ValueError on a datetime that already
carries timezone information, so Post construction fails instead of
producing a Post with the parsed date. -/
theorem post_init_aware_raises :
    Post.init "b" "b/a.md" (fun _ => "src") (fun _ => ['h'])
      (fun _ => [("title", [['t']]), ("date", [['d']])])
      (fun _ => some (.aware ⟨2020, 3, 0⟩)) plainTz =
      .error .valueErrorAlreadyAware := rfl

/-- C3 (amended): when the metadata date string parses to a timezone-naive
datetime, Post construction interprets it as wall-clock time in the fixed
reference timezone and raises rather than guessing when that local time is
ambiguous or nonexistent under DST; when the date string parses to a
timezone-aware datetime, construction raises the ValueError of pytz
instead of using the parsed value. -/
theorem post_init_localization
    (lb fp : String) (rf : String → String) (mc : String → List Char)
    (mm : String → List (String × List (List Char)))
    (pd : List Char → Option ParsedDT) (tz : Timezone)
    (tLines dLines : List (List Char)) (t0 d0 : List Char)
    (hT : lookupMeta (mm (rf fp)) "title" = some tLines)
    (hT0 : tLines.head? = some t0)
    (hD : lookupMeta (mm (rf fp)) "date" = some dLines)
    (hD0 : dLines.head? = some d0) :
    (∀ w : NaiveDT, pd (unquote d0) = some (.naive w) →
      tz.isAmbiguous w = false → tz.isNonexistent w = false →
      Post.init lb fp rf mc mm pd tz =
        .ok ⟨fp, make_slug lb fp, rf fp, mc (rf fp),
             jsonDumps (mc (rf fp)), unquote t0, tz.attach w⟩) ∧
    (∀ w : NaiveDT, pd (unquote d0) = some (.naive w) →
      tz.isAmbiguous w = true ∨ tz.isNonexistent w = true →
      Post.init lb fp rf mc mm pd tz = .error .ambiguousTime ∨
      Post.init lb fp rf mc mm pd tz = .error .nonExistentTime) ∧
    (∀ a : AwareDT, pd (unquote d0) = some (.aware a) →
      Post.init lb fp rf mc mm pd tz = .error .valueErrorAlreadyAware) := by
  refine ⟨?_, ?_, ?_⟩
  · intro w hpd hamb hnon
    simp [Post.init, hT, hT0, hD, hD0, hpd, pytzLocalize, hamb, hnon]
  · intro w hpd hcase
    rcases hcase with hamb | hnon
    · left
      simp [Post.init, hT, hT0, hD, hD0, hpd, pytzLocalize, hamb]
    · cases hamb : tz.isAmbiguous w with
      | false =>
        right
        simp [Post.init, hT, hT0, hD, hD0, hpd, pytzLocalize, hamb, hnon]
      | true =>
        left
        simp [Post.init, hT, hT0, hD, hD0, hpd, pytzLocalize, hamb]
  · intro a hpd
    simp [Post.init, hT, hT0, hD, hD0, hpd, pytzLocalize]

/-- C3 (witness): the amended theorem evaluated on a concrete naive,
unambiguous, existent parse result. -/
theorem post_init_localization_witness :
    Post.init "b" "b/a.md" (fun _ => "src") (fun _ => ['h'])
      (fun _ => [("title", [['t']]), ("date", [['d']])])
      (fun _ => some (.naive ⟨2020, 3, 0⟩)) plainTz =
      .ok ⟨"b/a.md", make_slug "b" "b/a.md", "src", ['h'],
           jsonDumps ['h'], unquote ['t'], plainTz.attach ⟨2020, 3, 0⟩⟩ :=
  (post_init_localization "b" "b/a.md" (fun _ => "src") (fun _ => ['h'])
      (fun _ => [("title", [['t']]), ("date", [['d']])])
      (fun _ => some (.naive ⟨2020, 3, 0⟩)) plainTz
      [['t']] [['d']] ['t'] ['d'] rfl rfl rfl rfl).1
    ⟨2020, 3, 0⟩ rfl rfl rfl

/-- C7: a content file whose metadata lacks the title key or the date key
fails Post construction with the missing-metadata error, and a successful
construction implies both keys were present.  The well-formedness
hypothesis records that the Markdown metadata extension never produces a
key with an empty list of value lines. -/
theorem post_init_requires_title_and_date
    (lb fp : String) (rf : String → String) (mc : String → List Char)
    (mm : String → List (String × List (List Char)))
    (pd : List Char → Option ParsedDT) (tz : Timezone)
    (hwf : ∀ kv ∈ mm (rf fp), kv.2 ≠ []) :
    ((lookupMeta (mm (rf fp)) "title" = none ∨
      lookupMeta (mm (rf fp)) "date" = none) →
      Post.init lb fp rf mc mm pd tz = .error .missingMetadata) ∧
    (∀ p : Post, Post.init lb fp rf mc mm pd tz = .ok p →
      (lookupMeta (mm (rf fp)) "title").isSome = true ∧
      (lookupMeta (mm (rf fp)) "date").isSome = true) := by
  constructor
  · intro h
    cases hT : lookupMeta (mm (rf fp)) "title" with
    | none => simp [Post.init, hT]
    | some tl =>
      rcases h with hT' | hD
      · rw [hT] at hT'; cases hT'
      · have htl : ∃ c cs, tl = c :: cs := by
          unfold lookupMeta at hT
          obtain ⟨kv, hfind, hkv⟩ := Option.map_eq_some'.mp hT
          cases h0 : tl with
          | nil =>
            exact absurd (hkv.trans h0)
              (hwf kv (List.mem_of_find?_eq_some hfind))
          | cons c cs => exact ⟨c, cs, rfl⟩
        obtain ⟨c, cs, rfl⟩ := htl
        simp [Post.init, hT, hD]
  · intro p hok
    cases hT : lookupMeta (mm (rf fp)) "title" with
    | none => simp [Post.init, hT] at hok
    | some tl =>
      cases htl : tl.head? with
      | none => simp [Post.init, hT, htl] at hok
      | some t0 =>
        cases hD : lookupMeta (mm (rf fp)) "date" with
        | none => simp [Post.init, hT, htl, hD] at hok
        | some dl => simp [hT, hD]

/-- C7 (witness): a metadata block carrying a title but no date fails with
the missing-metadata error. -/
theorem post_init_requires_witness :
    Post.init "b" "b/a.md" (fun _ => "src") (fun _ => ['h'])
      (fun _ => [("title", [['t']])])
      (fun _ => some (.naive ⟨2020, 3, 0⟩)) plainTz =
      .error .missingMetadata :=
  (post_init_requires_title_and_date "b" "b/a.md" (fun _ => "src")
      (fun _ => ['h']) (fun _ => [("title", [['t']])])
      (fun _ => some (.naive ⟨2020, 3, 0⟩)) plainTz
      (by decide)).1 (Or.inr rfl)

/-- C9: the json_html field is assigned exactly once, at construction, to
the JSON encoding of the html field at that moment; the pre-feed mutation
rewrites only the html field; consequently every post of the final
collection still carries the JSON encoding of its original html while its
html field has been rewritten. -/
theorem json_html_set_once_never_updated :
    (∀ (lb fp : String) (rf : String → String) (mc : String → List Char)
        (mm : String → List (String × List (List Char)))
        (pd : List Char → Option ParsedDT) (tz : Timezone) (p : Post),
      Post.init lb fp rf mc mm pd tz = .ok p →
      p.json_html = jsonDumps p.html) ∧
    (∀ p : Post, (mutatePost p).json_html = p.json_html ∧
      (mutatePost p).html = rewriteBlog p.html) ∧
    (∀ posts0 : List Post,
      (∀ p ∈ posts0, p.json_html = jsonDumps p.html) →
      ∀ q ∈ finalPosts posts0, ∃ p ∈ posts0,
        q.json_html = jsonDumps p.html ∧ q.html = rewriteBlog p.html) := by
  refine ⟨?_, fun p => ⟨rfl, rfl⟩, ?_⟩
  · intro lb fp rf mc mm pd tz p hok
    cases hT : lookupMeta (mm (rf fp)) "title" with
    | none => simp [Post.init, hT] at hok
    | some tl =>
      cases htl : tl.head? with
      | none => simp [Post.init, hT, htl] at hok
      | some t0 =>
        cases hD : lookupMeta (mm (rf fp)) "date" with
        | none => simp [Post.init, hT, htl, hD] at hok
        | some dl =>
          cases hdl : dl.head? with
          | none => simp [Post.init, hT, htl, hD, hdl] at hok
          | some d0 =>
            cases hpd : pd (unquote d0) with
            | none => simp [Post.init, hT, htl, hD, hdl, hpd] at hok
            | some parsed =>
              cases hloc : pytzLocalize tz parsed with
              | error e =>
                simp [Post.init, hT, htl, hD, hdl, hpd, hloc] at hok
              | ok d =>
                simp [Post.init, hT, htl, hD, hdl, hpd, hloc] at hok
                rw [← hok]
  · intro posts0 h0 q hq
    unfold finalPosts at hq
    obtain ⟨r, hr, rfl⟩ := List.mem_map.mp hq
    have hrp : r ∈ posts0 :=
      (List.perm_insertionSort postDesc posts0).subset hr
    exact ⟨r, hrp, by rw [← h0 r hrp]; rfl, rfl⟩

/-- C9 (witness): the frame property evaluated on a singleton collection
whose post carries the JSON encoding of its html. -/
theorem json_html_witness :
    ∃ p ∈ [(⟨"a", "a", "s", ['x'], jsonDumps ['x'], ['t'],
        ⟨2020, 3, 0⟩⟩ : Post)],
      (mutatePost ⟨"a", "a", "s", ['x'], jsonDumps ['x'], ['t'],
        ⟨2020, 3, 0⟩⟩).json_html = jsonDumps p.html ∧
      (mutatePost ⟨"a", "a", "s", ['x'], jsonDumps ['x'], ['t'],
        ⟨2020, 3, 0⟩⟩).html = rewriteBlog p.html :=
  json_html_set_once_never_updated.2.2
    [⟨"a", "a", "s", ['x'], jsonDumps ['x'], ['t'], ⟨2020, 3, 0⟩⟩]
    (by simp)
    (mutatePost ⟨"a", "a", "s", ['x'], jsonDumps ['x'], ['t'], ⟨2020, 3, 0⟩⟩)
    (by simp [finalPosts, sortPostsDesc, List.insertionSort, List.orderedInsert])

/-- C8: in every build the in-place rewrite of the html fields happens
after the per-post, index and archive renders and before both feed
renders: the build trace splits as a prefix of non-feed render events,
each seeing only html bodies of the original posts, followed by the
mutation, followed by exactly the two feed renders, each seeing the
rewritten html bodies. -/
theorem build_mutation_before_feeds (posts0 : List Post) :
    ∃ pre,
      buildEvents posts0 =
        pre ++ [Event.mutateHtml,
          Event.renderRSS
            ((sortPostsDesc posts0).map (fun p => rewriteBlog p.html)),
          Event.renderJSON
            ((sortPostsDesc posts0).map (fun p => rewriteBlog p.html))] ∧
      (∀ e ∈ pre, e.isFeed = false ∧ e ≠ Event.mutateHtml) ∧
      (∀ e ∈ pre, ∀ h ∈ e.htmls, ∃ p ∈ posts0, h = p.html) := by
  have hperm : ∀ p : Post, p ∈ sortPostsDesc posts0 → p ∈ posts0 :=
    fun p hp => (List.perm_insertionSort postDesc posts0).subset hp
  refine ⟨(sortPostsDesc posts0).map
        (fun p => Event.renderPost p.source_path p.html)
      ++ ([Event.renderIndex ((sortPostsDesc posts0).map (fun p => p.html))]
      ++ ((yearsOf (sortPostsDesc posts0)).flatMap (fun y =>
            Event.renderYearArchive y
                ((byYear (sortPostsDesc posts0) y).map (fun p => p.html))
              :: (monthsOf (byYear (sortPostsDesc posts0) y)).map (fun m =>
                  Event.renderMonthArchive y m
                    ((byMonth (byYear (sortPostsDesc posts0) y) m).map
                      (fun p => p.html)))))), ?_, ?_, ?_⟩
  · simp [buildEvents, mutatePost, List.map_map, Function.comp]
  · intro e he
    rcases List.mem_append.mp he with h1 | h23
    · obtain ⟨p, _, rfl⟩ := List.mem_map.mp h1
      exact ⟨rfl, by simp⟩
    · rcases List.mem_append.mp h23 with h2 | h3
      · rw [List.mem_singleton.mp h2]
        exact ⟨rfl, by simp⟩
      · obtain ⟨y, _, hmem⟩ := List.mem_flatMap.mp h3
        rcases List.mem_cons.mp hmem with rfl | hmon
        · exact ⟨rfl, by simp⟩
        · obtain ⟨m, _, rfl⟩ := List.mem_map.mp hmon
          exact ⟨rfl, by simp⟩
  · intro e he h hh
    rcases List.mem_append.mp he with h1 | h23
    · obtain ⟨p, hp, rfl⟩ := List.mem_map.mp h1
      simp only [Event.htmls, List.mem_singleton] at hh
      exact ⟨p, hperm p hp, hh⟩
    · rcases List.mem_append.mp h23 with h2 | h3
      · rw [List.mem_singleton.mp h2] at hh
        simp only [Event.htmls] at hh
        obtain ⟨p, hp, rfl⟩ := List.mem_map.mp hh
        exact ⟨p, hperm p hp, rfl⟩
      · obtain ⟨y, _, hmem⟩ := List.mem_flatMap.mp h3
        rcases List.mem_cons.mp hmem with rfl | hmon
        · simp only [Event.htmls] at hh
          obtain ⟨p, hp, rfl⟩ := List.mem_map.mp hh
          exact ⟨p, hperm p (List.mem_filter.mp hp).1, rfl⟩
        · obtain ⟨m, _, rfl⟩ := List.mem_map.mp hmon
          simp only [Event.htmls] at hh
          obtain ⟨p, hp, rfl⟩ := List.mem_map.mp hh
          have hp1 := (List.mem_filter.mp hp).1
          exact ⟨p, hperm p (List.mem_filter.mp hp1).1, rfl⟩

mutual
/-- A path is produced by the walk below a tree exactly when it is the
join of the base with the relative location of a file of the tree whose
extension test succeeds. -/
theorem mem_find_files_iff (exts : List (List Char)) (p : String) :
    ∀ (base : String) (t : FSTree),
      p ∈ find_files exts base t ↔
        ∃ ds f, FileIn t ds f ∧ extMatched exts f.toList = true ∧
          p = joinPath base ds f
  | base, .node files subdirs => by
    simp only [find_files]
    constructor
    · intro hp
      rcases List.mem_append.mp hp with h1 | h2
      · obtain ⟨f, hf, rfl⟩ := List.mem_map.mp h1
        obtain ⟨hfl, hxt⟩ := List.mem_filter.mp hf
        exact ⟨[], f, .here hfl, hxt, rfl⟩
      · obtain ⟨name, t, ds, f, hmem, hin, hxt, rfl⟩ :=
          (mem_findFilesEntries_iff exts p base subdirs).mp h2
        exact ⟨name :: ds, f, .inSub hmem hin, hxt, rfl⟩
    · rintro ⟨ds, f, hin, hxt, rfl⟩
      cases hin with
      | here hfl =>
        exact List.mem_append.mpr (Or.inl
          (List.mem_map.mpr ⟨f, List.mem_filter.mpr ⟨hfl, hxt⟩, rfl⟩))
      | inSub hmem hd =>
        exact List.mem_append.mpr (Or.inr
          ((mem_findFilesEntries_iff exts _ base subdirs).mpr
            ⟨_, _, _, f, hmem, hd, hxt, rfl⟩))

/-- A path is produced by the walk of a subdirectory list exactly when one
of the named subtrees produces it below the base extended by that name. -/
theorem mem_findFilesEntries_iff (exts : List (List Char)) (p : String) :
    ∀ (base : String) (es : Entries),
      p ∈ findFilesEntries exts base es ↔
        ∃ name t ds f, (name, t) ∈ es.toList ∧ FileIn t ds f ∧
          extMatched exts f.toList = true ∧
          p = joinPath (pyJoin base name) ds f
  | base, .nil => by simp [findFilesEntries, Entries.toList]
  | base, .cons name t rest => by
    simp only [findFilesEntries, Entries.toList]
    constructor
    · intro hp
      rcases List.mem_append.mp hp with h1 | h2
      · obtain ⟨ds, f, hin, hxt, rfl⟩ :=
          (mem_find_files_iff exts p (pyJoin base name) t).mp h1
        exact ⟨name, t, ds, f, List.mem_cons_self _ _, hin, hxt, rfl⟩
      · obtain ⟨n, t', ds, f, hmem, hin, hxt, rfl⟩ :=
          (mem_findFilesEntries_iff exts p base rest).mp h2
        exact ⟨n, t', ds, f, List.mem_cons_of_mem _ hmem, hin, hxt, rfl⟩
    · rintro ⟨n, t', ds, f, hmem, hin, hxt, rfl⟩
      rcases List.mem_cons.mp hmem with heq | hmem'
      · injection heq with h1 h2
        subst h1
        subst h2
        exact List.mem_append.mpr (Or.inl
          ((mem_find_files_iff exts _ (pyJoin base n) t').mpr
            ⟨ds, f, hin, hxt, rfl⟩))
      · exact List.mem_append.mpr (Or.inr
          ((mem_findFilesEntries_iff exts _ base rest).mpr
            ⟨n, t', ds, f, hmem', hin, hxt, rfl⟩))
end

/-- Joining a component onto an absolute path yields an absolute path. -/
theorem isAbsolutePath_pyJoin (a b : String)
    (h : isAbsolutePath a = true) : isAbsolutePath (pyJoin a b) = true := by
  unfold isAbsolutePath pyJoin at *
  rcases a with ⟨la⟩
  cases la with
  | nil => simp at h
  | cons c cs =>
    simp only [String.data_append]
    simpa using h

/-- Every path the walk produces below an absolute base is absolute. -/
theorem isAbsolutePath_joinPath (base : String) (ds : List String)
    (f : String) (h : isAbsolutePath base = true) :
    isAbsolutePath (joinPath base ds f) = true := by
  unfold joinPath
  apply isAbsolutePath_pyJoin
  induction ds generalizing base with
  | nil => exact h
  | cons d ds ih =>
    simpa only [List.foldl_cons] using
      ih (pyJoin base d) (isAbsolutePath_pyJoin base d h)

/-- C4 (counterexample): discovery does not always produce absolute
paths.  When the program is started on the relative root directory named
content, the walk of a directory holding one matching file yields the
relative path content/a.md, which is not absolute; nothing in find_files
absolutizes the paths it joins. -/
theorem find_files_relative_path :
    "content/a.md" ∈ find_files [['m', 'd']] "content"
        (.node ["a.md"] .nil) ∧
    isAbsolutePath "content/a.md" = false := by
  constructor
  · decide
  · decide

/-- C4 (amended): the paths produced by file discovery are exactly the
joins of the given root with the relative locations of the files, at any
depth, whose extension — lowercased and with the leading dot removed — is
a member of the configured extension set; each produced path extends the
given root, so it is absolute whenever the given root is absolute (and
only then). -/
theorem find_files_exact (exts : List (List Char)) (base : String)
    (t : FSTree) :
    (∀ p : String, p ∈ find_files exts base t ↔
      ∃ ds f, FileIn t ds f ∧ extMatched exts f.toList = true ∧
        p = joinPath base ds f) ∧
    (∀ p ∈ find_files exts base t,
      isAbsolutePath base = true → isAbsolutePath p = true) := by
  refine ⟨fun p => mem_find_files_iff exts p base t, ?_⟩
  intro p hp habs
  obtain ⟨ds, f, _, _, rfl⟩ := (mem_find_files_iff exts p base t).mp hp
  exact isAbsolutePath_joinPath base ds f habs

/-- C4 (witness): the amended theorem evaluated on a concrete walk from an
absolute root. -/
theorem find_files_exact_witness :
    isAbsolutePath "/c/a.md" = true :=
  (find_files_exact [['m', 'd']] "/c" (.node ["a.md"] .nil)).2
    "/c/a.md" (by decide) (by decide)

/-- C1 (witness): the amended theorem evaluated on a concrete filesystem
in which the year directory exists but the month directory does not. -/
theorem write_archive_iff_dir_exists_witness :
    (((writeYearArchive ⟨[["blog"], ["blog", "2020"]], []⟩ ["blog"] 2020
        "page").isSome ↔
      ["blog"] ++ [toString (2020 : Int)] ∈
        (⟨[["blog"], ["blog", "2020"]], []⟩ : FileSys).dirs)) ∧
    (((writeMonthArchive ⟨[["blog"], ["blog", "2020"]], []⟩ ["blog"] 2020 3
        "page").isSome ↔
      ["blog"] ++ [toString (2020 : Int), pad2 3] ∈
        (⟨[["blog"], ["blog", "2020"]], []⟩ : FileSys).dirs)) :=
  write_archive_iff_dir_exists ⟨[["blog"], ["blog", "2020"]], []⟩
    ["blog"] 2020 3 "page"

/-- C2 (witness): the permutation conjunct of the sorting theorem
evaluated on a concrete singleton collection. -/
theorem sortPostsDesc_witness :
    (sortPostsDesc [(⟨"a", "a", "s", ['x'], ['x'], ['t'],
        ⟨2020, 3, 0⟩⟩ : Post)]).Perm
      [(⟨"a", "a", "s", ['x'], ['x'], ['t'], ⟨2020, 3, 0⟩⟩ : Post)] :=
  (sortPostsDesc_perm_sorted_stable
    [⟨"a", "a", "s", ['x'], ['x'], ['t'], ⟨2020, 3, 0⟩⟩]).1

/-- C5 (witness): the partition theorem evaluated on a concrete singleton
collection. -/
theorem byYear_partition_witness :
    ((yearsOf [(⟨"a", "a", "s", ['x'], ['x'], ['t'],
        ⟨2020, 3, 0⟩⟩ : Post)]).flatMap
      (byYear [(⟨"a", "a", "s", ['x'], ['x'], ['t'],
        ⟨2020, 3, 0⟩⟩ : Post)])).Perm
      [(⟨"a", "a", "s", ['x'], ['x'], ['t'], ⟨2020, 3, 0⟩⟩ : Post)] :=
  (byYear_partition
    [⟨"a", "a", "s", ['x'], ['x'], ['t'], ⟨2020, 3, 0⟩⟩]).1

/-- C8 (witness): the trace-splitting theorem evaluated on the empty
collection. -/
theorem build_mutation_before_feeds_witness :
    ∃ pre,
      buildEvents [] =
        pre ++ [Event.mutateHtml,
          Event.renderRSS
            ((sortPostsDesc []).map (fun p => rewriteBlog p.html)),
          Event.renderJSON
            ((sortPostsDesc []).map (fun p => rewriteBlog p.html))] ∧
      (∀ e ∈ pre, e.isFeed = false ∧ e ≠ Event.mutateHtml) ∧
      (∀ e ∈ pre, ∀ h ∈ e.htmls, ∃ p ∈ ([] : List Post), h = p.html) :=
  build_mutation_before_feeds []

end MakeBlog
